import Mathlib

/-!
Shallow embedding of `flake8diff/flake8.py` (flake8-diff).

The module runs flake8 over the files a VCS diff reports as changed, parses
each flake8 output line with the regex `FLAKE8_LINE`, keeps only violations
whose `line_number` group is a member of the per-file changed-line set, and
prints the kept violations either in flake8's flat format or grouped under a
per-file header, through a color theme.

External collaborators (the flake8 subprocess, the blessings `Terminal`, the
VCS providers of `flake8diff/vcs.py` and the exception classes of
`flake8diff/exceptions.py`, none of which are part of the embedded source
file) are modelled as parameters: the linter's stdout is a `String`-valued
function of the filename, a `Terminal` is a record of string-formatting
functions, the `SUPPORTED_VCS` registry is an ordered association list, and
the two exceptions become the inductive `VCSError`.
-/

namespace Flake8Diff

/-- One parsed flake8 violation: the named groups of the `FLAKE8_LINE` regex
(`matches.groupdict()` in `Flake8Diff.process`). All fields are strings, as
in the source. -/
structure ViolationRecord where
  filename : String
  line_number : String
  char_number : String
  error_code : String
  description : String
  deriving Repr, DecidableEq

/-- The character class `\s` of Python's `re` for ASCII text: the characters
excluded by the `[^\s]` filename group of `FLAKE8_LINE`. -/
def isSpaceChar (c : Char) : Bool :=
  c = ' ' || c = '\t' || c = '\n' || c = '\r' || c = '\x0b' || c = '\x0c'

/-- The character class `[\w\d]` of the `error_code` group of `FLAKE8_LINE`
(ASCII word characters). -/
def isWordChar (c : Char) : Bool :=
  c.isAlphanum || c = '_'

/-- Assemble the record returned by a successful `FLAKE8_LINE` match. -/
def mkRecord (fn l ch code desc : List Char) : ViolationRecord :=
  ⟨fn.asString, l.asString, ch.asString, code.asString, desc.asString⟩

/-- Greedy match of the tail `(?P<error_code>[\w\d]*) (?P<description>.*)` of
`FLAKE8_LINE`: extend the (reversed) code accumulator while the next character
is a word character, trying the longer code first and falling back, as
Python's backtracking does, to stopping here and demanding the literal space;
`.*` then captures the rest of the line up to a newline. -/
def matchCodeStar (fn l ch codeAcc : List Char) : List Char → Option ViolationRecord
  | [] => none
  | c :: cs =>
    Option.orElse
      (if isWordChar c then matchCodeStar fn l ch (c :: codeAcc) cs else none)
      (fun _ =>
        if c = ' ' then
          some (mkRecord fn l ch codeAcc.reverse (cs.takeWhile (fun d => decide (d ≠ '\n'))))
        else none)

/-- Greedy match of `[\d]+` for the `char_number` group (first digit already
consumed into `chAcc`), followed by the literal `: ` and the code/description
tail. Longer digit runs are tried first. -/
def matchCharNum (fn l chAcc : List Char) : List Char → Option ViolationRecord
  | [] => none
  | c :: cs =>
    Option.orElse
      (if c.isDigit then matchCharNum fn l (c :: chAcc) cs else none)
      (fun _ =>
        if c = ':' then
          match cs with
          | c2 :: rest => if c2 = ' ' then matchCodeStar fn l chAcc.reverse [] rest else none
          | [] => none
        else none)

/-- Entry into the `char_number` group: it must start with a digit. -/
def matchCharNumStart (fn l : List Char) : List Char → Option ViolationRecord
  | c :: cs => if c.isDigit then matchCharNum fn l [c] cs else none
  | [] => none

/-- Greedy match of `[\d]+` for the `line_number` group (first digit already
consumed into `lAcc`), followed by the literal `:` and the char-number part. -/
def matchLineNum (fn lAcc : List Char) : List Char → Option ViolationRecord
  | [] => none
  | c :: cs =>
    Option.orElse
      (if c.isDigit then matchLineNum fn (c :: lAcc) cs else none)
      (fun _ => if c = ':' then matchCharNumStart fn lAcc.reverse cs else none)

/-- Entry into the `line_number` group: it must start with a digit. -/
def matchLineNumStart (fn : List Char) : List Char → Option ViolationRecord
  | c :: cs => if c.isDigit then matchLineNum fn [c] cs else none
  | [] => none

/-- Greedy match of `[^\s]+` for the `filename` group (first character already
consumed into `fnAcc`), followed by the literal `:` and the line-number part.
The longer filename is tried first, exactly as Python's greedy `+` with
backtracking. -/
def matchFilename (fnAcc : List Char) : List Char → Option ViolationRecord
  | [] => none
  | c :: cs =>
    Option.orElse
      (if isSpaceChar c = false then matchFilename (c :: fnAcc) cs else none)
      (fun _ => if c = ':' then matchLineNumStart fnAcc.reverse cs else none)

/-- `FLAKE8_LINE.match(line)` followed by `groupdict()`: the anchored,
leftmost-greedy match of
`^(?P<filename>[^\s]+):(?P<line_number>[\d]+):(?P<char_number>[\d]+): (?P<error_code>[\w\d]*) (?P<description>.*)`
returning the five named groups, or `none` when the line does not match. -/
def FLAKE8_LINE (s : String) : Option ViolationRecord :=
  match s.data with
  | c :: cs => if isSpaceChar c = false then matchFilename [c] cs else none
  | [] => none

/-- Python line-boundary characters recognised by `str.splitlines`. -/
def isLineBreak (c : Char) : Bool :=
  c = '\n' || c = '\r' || c = '\x0b' || c = '\x0c' || c = '\x1c' || c = '\x1d' ||
    c = '\x1e' || c = '\x85' || c = '\u2028' || c = '\u2029'

/-- Worker for `splitlines`: `acc` is the reversed current line. A `\r\n`
pair counts as a single boundary; no trailing empty line is produced. -/
def splitlinesAux : List Char → List Char → List String
  | [], acc => if acc.isEmpty then [] else [acc.reverse.asString]
  | '\r' :: '\n' :: cs, acc => acc.reverse.asString :: splitlinesAux cs []
  | c :: cs, acc =>
    if isLineBreak c then acc.reverse.asString :: splitlinesAux cs []
    else splitlinesAux cs (c :: acc)

/-- Python's `str.splitlines()`, applied to the captured flake8 stdout. -/
def splitlines (s : String) : List String :=
  splitlinesAux s.data []

/-- The blessings `Terminal` attributes used by the color themes, kept
abstract: each is some string-formatting function. -/
structure Terminal where
  bold_underline : String → String
  standout : String → String
  bold : String → String
  bold_red : String → String
  magenta : String → String
  yellow : String → String
  blue : String → String

/-- A terminal whose every attribute leaves its argument unchanged. -/
def identityTerminal : Terminal :=
  ⟨id, id, id, id, id, id, id⟩

/-- `identity = lambda x: x` from the module header. -/
def identity : String → String :=
  fun x => x

/-- The `COLORS` theme registry: theme name to component-name-to-formatter
mapping, in source order. -/
def COLORS (t : Terminal) : List (String × List (String × (String → String))) :=
  [ ("off",
      [ ("header", identity), ("filename", identity), ("code", identity),
        ("line", identity), ("char", identity), ("description", identity) ]),
    ("nocolor",
      [ ("header", t.bold_underline), ("filename", t.standout), ("code", t.bold),
        ("line", identity), ("char", identity), ("description", identity) ]),
    ("dark",
      [ ("header", t.bold), ("filename", identity), ("code", t.bold_red),
        ("line", t.magenta), ("char", t.magenta), ("description", t.yellow) ]),
    ("light",
      [ ("header", t.bold), ("filename", identity), ("code", t.bold_red),
        ("line", t.magenta), ("char", t.magenta), ("description", t.blue) ]) ]

/-- The recognised keys of the options dictionary handed to `Flake8Diff`.
`standard_flake8_output`, `verbose` and `debug` are used as booleans; `vcs`,
`flake8_options` and `color_theme` may be absent (`dict.get` yields `None`). -/
structure Options where
  vcs : Option String
  flake8_options : Option String
  standard_flake8_output : Bool
  color_theme : Option String
  verbose : Bool
  debug : Bool

/-- `Flake8Diff.color_getter`: resolve the selected theme in `COLORS`
(an absent or unknown theme yields the empty mapping), then the component in
the theme, falling back to `identity`. -/
def color_getter (t : Terminal) (opts : Options) (component : String) : String → String :=
  let theme :=
    match opts.color_theme with
    | none => []
    | some name => ((COLORS t).lookup name).getD []
  (theme.lookup component).getD identity

/-- The keyword set built by `Flake8Diff.get_color_kwargs`. -/
structure ColorKwargs where
  line : String
  char : String
  code : String
  description : String
  filename : String
  header : String

/-- `details.get(key, '')` on a violation-details dictionary. -/
def detailsGet (details : List (String × String)) (key : String) : String :=
  (details.lookup key).getD ""

/-- `Flake8Diff.get_color_kwargs`: look up each source key in the details
dictionary (absent keys default to the empty string) and apply the matching
component's color function. -/
def get_color_kwargs (t : Terminal) (opts : Options) (details : List (String × String)) :
    ColorKwargs :=
  ⟨ color_getter t opts "line" (detailsGet details "line_number"),
    color_getter t opts "char" (detailsGet details "char_number"),
    color_getter t opts "code" (detailsGet details "error_code"),
    color_getter t opts "description" (detailsGet details "description"),
    color_getter t opts "filename" (detailsGet details "filename"),
    color_getter t opts "header" (detailsGet details "header") ⟩

/-- `matches.groupdict()` of a successful `FLAKE8_LINE` match, as the details
dictionary consumed by `get_color_kwargs`. -/
def groupdict (v : ViolationRecord) : List (String × String) :=
  [ ("filename", v.filename), ("line_number", v.line_number),
    ("char_number", v.char_number), ("error_code", v.error_code),
    ("description", v.description) ]

/-- `HEADER_STRING = 'Found violations'`. -/
def HEADER_STRING : String := "Found violations"

/-- `FLAKE8_OUTPUT`, the flat template `filename:line:char: code description`
(written in the source with str.format fields), applied to color kwargs. -/
def FLAKE8_OUTPUT (kw : ColorKwargs) : String :=
  kw.filename ++ ":" ++ kw.line ++ ":" ++ kw.char ++ ": " ++ kw.code ++ " " ++ kw.description

/-- `HEADER_OUTPUT`, the per-file header template `header: filename`. -/
def HEADER_OUTPUT (kw : ColorKwargs) : String :=
  kw.header ++ ": " ++ kw.filename

/-- `SIMPLE_OUTPUT`, the grouped line template
tab, code, ` @ `, line, `:`, char, ` - `, description. -/
def SIMPLE_OUTPUT (kw : ColorKwargs) : String :=
  "\t" ++ kw.code ++ " @ " ++ kw.line ++ ":" ++ kw.char ++ " - " ++ kw.description

/-- A VCS provider instance as consumed by `Flake8Diff.process`: whether it
detects itself as active, the changed-files listing, and the per-file
changed-line sets (sets of line-number strings). -/
structure VCSEngine where
  is_used : Bool
  changed_files : List String
  changed_lines : String → List String

/-- Modelled from the spec: the exception classes `UnsupportedVCSError` and
`NotLocatableVCSError` of `flake8diff/exceptions.py`, which is not under
`src/`; per the spec they are the two fatal VCS-resolution error kinds. -/
inductive VCSError
  | unsupported (name : String)
  | notLocatable
  deriving Repr, DecidableEq

/-- The probing loop of `Flake8Diff.get_vcs`: walk `SUPPORTED_VCS.values()`
in registration order and return the first engine whose `is_used()` holds,
else raise `NotLocatableVCSError`. -/
def probeVCS : List (String × VCSEngine) → Except VCSError VCSEngine
  | [] => .error .notLocatable
  | (_, e) :: rest => if e.is_used then .ok e else probeVCS rest

/-- `Flake8Diff.get_vcs`. The `SUPPORTED_VCS` registry of
`flake8diff/vcs.py` (not under `src/`) is passed in as an ordered association
list. `if self.options.get('vcs')` is a Python truthiness test, so an empty
string behaves like an absent option. -/
def get_vcs (supported : List (String × VCSEngine)) (opts : Options) :
    Except VCSError VCSEngine :=
  match opts.vcs with
  | some name =>
    if name = "" then probeVCS supported
    else
      match supported.lookup name with
      | none => .error (.unsupported name)
      | some e => .ok e
  | none => probeVCS supported

/-- The records parsed from the flake8 output lines of one file: lines on
which `FLAKE8_LINE.match` fails are skipped. -/
def parsedViolations (lines : List String) : List ViolationRecord :=
  lines.filterMap FLAKE8_LINE

/-- The `violations` list accumulated for one file by `Flake8Diff.process`:
parsed records whose `line_number` is contained (string equality) in the
file's changed-line set. -/
def keptViolations (lines : List String) (violated : List String) : List ViolationRecord :=
  (parsedViolations lines).filter (fun v => violated.contains v.line_number)

/-- `len(violations)` for one file, the amount added to `overall_violations`. -/
def violationCount (lines : List String) (violated : List String) : Nat :=
  (keptViolations lines violated).length

/-- The lines printed for one file by `Flake8Diff.process`: with
`standard_flake8_output`, each kept violation immediately in the flat format;
otherwise, when at least one violation was kept, the header line followed by
one `SIMPLE_OUTPUT` line per kept violation, in flake8 output order. -/
def fileOutput (t : Terminal) (opts : Options) (filename : String)
    (lines : List String) (violated : List String) : List String :=
  let kept := keptViolations lines violated
  if opts.standard_flake8_output then
    kept.map (fun v => FLAKE8_OUTPUT (get_color_kwargs t opts (groupdict v)))
  else if kept.isEmpty then []
  else
    HEADER_OUTPUT (get_color_kwargs t opts [("filename", filename), ("header", HEADER_STRING)]) ::
      kept.map (fun v => SIMPLE_OUTPUT (get_color_kwargs t opts (groupdict v)))

/-- Observable effects of one `Flake8Diff.process` run: one `linterCall` per
flake8 subprocess invocation and one `printLine` per printed line. -/
inductive Event
  | linterCall (filename : String)
  | printLine (s : String)
  deriving Repr, DecidableEq

/-- The events of one iteration of the `changed_files` loop: the flake8 call
on the file, then the lines printed for it. `flakeRun` is the stdout of
the flake8 subprocess as a function of the filename. -/
def fileEvents (t : Terminal) (opts : Options) (flakeRun : String → String)
    (vcs : VCSEngine) (filename : String) : List Event :=
  Event.linterCall filename ::
    (fileOutput t opts filename (splitlines (flakeRun filename))
        (vcs.changed_lines filename)).map Event.printLine

/-- The final value of `overall_violations` in `Flake8Diff.process`. -/
def totalViolations (flakeRun : String → String) (vcs : VCSEngine) : Nat :=
  (vcs.changed_files.map
    (fun f => violationCount (splitlines (flakeRun f)) (vcs.changed_lines f))).sum

/-- `Flake8Diff.process`: resolve the VCS (errors propagate before any file is
touched), run flake8 on each changed file, filter and print, and return
whether `overall_violations == 0`. -/
def process (t : Terminal) (supported : List (String × VCSEngine)) (opts : Options)
    (flakeRun : String → String) : Except VCSError (List Event × Bool) :=
  match get_vcs supported opts with
  | .error e => .error e
  | .ok vcs =>
    .ok ((vcs.changed_files.map (fileEvents t opts flakeRun vcs)).flatten,
      totalViolations flakeRun vcs == 0)

/-! ### Helper lemmas -/

theorem orElse_none_right {α : Type} (o : Option α) :
    Option.orElse o (fun _ => none) = o := by
  cases o <;> rfl

theorem lookup_getD_of_all_eq {α β : Type} [BEq α] (l : List (α × β)) (k : α) (v : β)
    (h : ∀ p ∈ l, p.2 = v) : (l.lookup k).getD v = v := by
  induction l with
  | nil => rfl
  | cons p tl ih =>
    obtain ⟨a, b⟩ := p
    have hb : b = v := h (a, b) (by simp)
    cases hk : k == a with
    | true => simp [List.lookup, hk, hb]
    | false =>
      simpa [List.lookup, hk] using ih (fun q hq => h q (List.mem_cons_of_mem _ hq))

theorem contains_iff_mem (l : List String) (x : String) : l.contains x = true ↔ x ∈ l := by
  induction l with
  | nil => simp
  | cons a tl ih => simp

/-! ### Sample inputs used by the witnesses -/

/-- A VCS engine reporting one changed file with changed lines 10 and 12. -/
def gitEngine : VCSEngine :=
  ⟨true, ["a.py"], fun _ => ["10", "12"]⟩

/-- A VCS engine whose diff is empty. -/
def emptyEngine : VCSEngine :=
  ⟨true, [], fun _ => []⟩

/-- A one-provider registry, as an instance of SUPPORTED_VCS. -/
def sampleRegistry : List (String × VCSEngine) :=
  [("git", gitEngine)]

/-- Default-like options: grouped output, no theme, no forced VCS. -/
def optsGrouped : Options :=
  ⟨none, none, false, none, false, false⟩

/-- Options selecting the standard (flat) flake8 output. -/
def optsStd : Options :=
  ⟨none, none, true, none, false, false⟩

/-- Options forcing an unregistered VCS name. -/
def optsSvn : Options :=
  ⟨some "svn", none, false, none, false, false⟩

/-- Options selecting the `off` color theme. -/
def optsOff : Options :=
  ⟨none, none, false, some "off", false, false⟩

/-- A terminal whose every attribute visibly styles its argument, standing in
for the escape-code-producing blessings attributes. -/
def loudTerminal : Terminal :=
  ⟨fun s => "[ul " ++ s ++ "]", fun s => "[so " ++ s ++ "]", fun s => "[b " ++ s ++ "]",
    fun s => "[br " ++ s ++ "]", fun s => "[m " ++ s ++ "]", fun s => "[y " ++ s ++ "]",
    fun s => "[bl " ++ s ++ "]"⟩

/-! ### Claims -/

/-- Claim C1: a parsed violation is kept for a file if and only if its
`line_number` string is a member of the file's changed-line set; membership is
exact string equality on the whole `line_number` group (no numeric coercion,
no ranges); the per-file count is the length of the kept list, and every kept
violation appears, formatted, in whichever output format is selected. -/
theorem c1_reported_iff_changed_line (lines violated : List String) (v : ViolationRecord) :
    (v ∈ keptViolations lines violated ↔
      v ∈ parsedViolations lines ∧ violated.contains v.line_number = true) ∧
    (violated.contains v.line_number = true ↔ ∃ s ∈ violated, s = v.line_number) ∧
    violationCount lines violated = (keptViolations lines violated).length ∧
    (∀ t opts f, v ∈ keptViolations lines violated →
      (if opts.standard_flake8_output then FLAKE8_OUTPUT (get_color_kwargs t opts (groupdict v))
        else SIMPLE_OUTPUT (get_color_kwargs t opts (groupdict v))) ∈
          fileOutput t opts f lines violated) := by
  refine ⟨?_, ?_, rfl, ?_⟩
  · simp [keptViolations, List.mem_filter]
  · rw [contains_iff_mem]
    constructor
    · intro h
      exact ⟨v.line_number, h, rfl⟩
    · rintro ⟨s, hs, rfl⟩
      exact hs
  · intro t opts f hv
    cases hstd : opts.standard_flake8_output with
    | true =>
      simp only [fileOutput, hstd, if_true]
      exact List.mem_map_of_mem _ hv
    | false =>
      have hie : (keptViolations lines violated).isEmpty = false := by
        cases hk : keptViolations lines violated with
        | nil => rw [hk] at hv; simp at hv
        | cons a l => rfl
      simp only [fileOutput, hstd, Bool.false_eq_true, if_false, hie]
      exact List.mem_cons_of_mem _ (List.mem_map_of_mem _ hv)

theorem c1_witness :
    (⟨"a.py", "10", "1", "E501", "x"⟩ : ViolationRecord) ∈
        keptViolations ["a.py:10:1: E501 x"] ["10"] ∧
    (if optsStd.standard_flake8_output then
        FLAKE8_OUTPUT (get_color_kwargs identityTerminal optsStd
          (groupdict ⟨"a.py", "10", "1", "E501", "x"⟩))
      else SIMPLE_OUTPUT (get_color_kwargs identityTerminal optsStd
          (groupdict ⟨"a.py", "10", "1", "E501", "x"⟩))) ∈
      fileOutput identityTerminal optsStd "a.py" ["a.py:10:1: E501 x"] ["10"] :=
  ⟨by decide,
    (c1_reported_iff_changed_line ["a.py:10:1: E501 x"] ["10"]
      ⟨"a.py", "10", "1", "E501", "x"⟩).2.2.2 identityTerminal optsStd "a.py" (by decide)⟩

/-- Claim C9: the membership test uses only the changed-line set of the file
the linter was invoked on; the `filename` group parsed from the output line is
never compared against the processed filename, so a record whose parsed
filename differs from the processed file is still kept whenever its line
number lies in that file's changed-line set. -/
theorem c9_parsed_filename_not_compared (vcsLines : String → List String)
    (flakeOut : String → List String) (f : String) (v : ViolationRecord)
    (hparse : v ∈ parsedViolations (flakeOut f))
    (hline : (vcsLines f).contains v.line_number = true)
    (_hfn : v.filename ≠ f) :
    v ∈ keptViolations (flakeOut f) (vcsLines f) :=
  List.mem_filter.mpr ⟨hparse, hline⟩

theorem c9_witness :
    (⟨"b.py", "10", "1", "E501", "x"⟩ : ViolationRecord) ∈
        parsedViolations ["b.py:10:1: E501 x"] ∧
    (["10", "12"] : List String).contains "10" = true ∧
    ("b.py" : String) ≠ "a.py" ∧
    (⟨"b.py", "10", "1", "E501", "x"⟩ : ViolationRecord) ∈
      keptViolations ["b.py:10:1: E501 x"] ["10", "12"] :=
  ⟨by decide, by decide, by decide,
    c9_parsed_filename_not_compared (fun _ => ["10", "12"]) (fun _ => ["b.py:10:1: E501 x"])
      "a.py" ⟨"b.py", "10", "1", "E501", "x"⟩ (by decide) (by decide) (by decide)⟩

/-- Claim C2: `process` returns `true` exactly when the cumulative kept
violation count over all changed files is zero, and any file with a nonempty
kept list forces the result `false`. -/
theorem c2_success_iff_zero_violations (t : Terminal) (supported : List (String × VCSEngine))
    (opts : Options) (flakeRun : String → String) (vcs : VCSEngine)
    (ev : List Event) (b : Bool)
    (hv : get_vcs supported opts = .ok vcs)
    (hp : process t supported opts flakeRun = .ok (ev, b)) :
    (b = true ↔ totalViolations flakeRun vcs = 0) ∧
    (∀ f ∈ vcs.changed_files,
        keptViolations (splitlines (flakeRun f)) (vcs.changed_lines f) ≠ [] → b = false) := by
  simp only [process, hv] at hp
  obtain ⟨-, hb⟩ := Prod.mk.injEq .. ▸ (Except.ok.injEq .. ▸ hp :
    ((vcs.changed_files.map (fileEvents t opts flakeRun vcs)).flatten,
      (totalViolations flakeRun vcs == 0 : Bool)) = (ev, b))
  constructor
  · rw [← hb]
    simp
  · intro f hf hne
    have hcount : violationCount (splitlines (flakeRun f)) (vcs.changed_lines f) ≠ 0 := by
      simpa [violationCount, List.length_eq_zero] using hne
    have hmem : violationCount (splitlines (flakeRun f)) (vcs.changed_lines f) ∈
        vcs.changed_files.map
          (fun g => violationCount (splitlines (flakeRun g)) (vcs.changed_lines g)) :=
      List.mem_map_of_mem _ hf
    have hle := List.single_le_sum (l :=
      vcs.changed_files.map
        (fun g => violationCount (splitlines (flakeRun g)) (vcs.changed_lines g)))
      (fun x _ => Nat.zero_le x) _ hmem
    have htot : totalViolations flakeRun vcs ≠ 0 := by
      rw [totalViolations]
      omega
    rw [← hb]
    simpa using htot

theorem c2_witness :
    get_vcs sampleRegistry optsGrouped = .ok gitEngine ∧
    process identityTerminal sampleRegistry optsGrouped (fun _ => "") =
      .ok ([Event.linterCall "a.py"], true) ∧
    ((true = true) ↔ totalViolations (fun _ => "") gitEngine = 0) :=
  ⟨rfl, rfl,
    (c2_success_iff_zero_violations identityTerminal sampleRegistry optsGrouped
      (fun _ => "") gitEngine [Event.linterCall "a.py"] true rfl rfl).1⟩

/-- Claim C10: when the provider's changed-files listing is empty, `process`
invokes no linter subprocess and prints nothing (its event trace is empty) and
returns `true`. -/
theorem c10_empty_diff (t : Terminal) (supported : List (String × VCSEngine))
    (opts : Options) (flakeRun : String → String) (vcs : VCSEngine)
    (hv : get_vcs supported opts = .ok vcs)
    (hfiles : vcs.changed_files = []) :
    process t supported opts flakeRun = .ok ([], true) := by
  simp [process, hv, totalViolations, hfiles]

theorem c10_witness :
    get_vcs [("git", emptyEngine)] optsGrouped = .ok emptyEngine ∧
    emptyEngine.changed_files = [] ∧
    process identityTerminal [("git", emptyEngine)] optsGrouped (fun _ => "") =
      .ok ([], true) :=
  ⟨rfl, rfl,
    c10_empty_diff identityTerminal [("git", emptyEngine)] optsGrouped (fun _ => "")
      emptyEngine rfl rfl⟩

/-- The probing loop selects the first registered engine whose `is_used()`
holds, and fails with `NotLocatableVCSError` when none does. -/
theorem probeVCS_eq_find (l : List (String × VCSEngine)) :
    probeVCS l =
      (l.find? (fun p => p.2.is_used)).elim (.error .notLocatable) (fun p => .ok p.2) := by
  induction l with
  | nil => rfl
  | cons p tl ih =>
    obtain ⟨n, e⟩ := p
    cases h : e.is_used with
    | true => simp [probeVCS, List.find?, h]
    | false => simp [probeVCS, List.find?, h, ih]

/-- Claim C5: with a (truthily) named VCS, an unrecognized name yields
`UnsupportedVCSError` and a recognized name selects that provider directly;
with no named VCS the providers are probed in registration order and the
first usable one is selected, `NotLocatableVCSError` otherwise; and a VCS
resolution error propagates out of `process` before any file is processed
(the error result carries no linter-call or print event). -/
theorem c5_vcs_resolution (supported : List (String × VCSEngine)) (opts : Options) :
    (∀ name, opts.vcs = some name → name ≠ "" → supported.lookup name = none →
        get_vcs supported opts = .error (.unsupported name)) ∧
    (∀ name e, opts.vcs = some name → name ≠ "" → supported.lookup name = some e →
        get_vcs supported opts = .ok e) ∧
    (opts.vcs = none →
        get_vcs supported opts =
          (supported.find? (fun p => p.2.is_used)).elim
            (.error .notLocatable) (fun p => .ok p.2)) ∧
    (∀ t flakeRun e, get_vcs supported opts = .error e →
        process t supported opts flakeRun = .error e) := by
  refine ⟨?_, ?_, ?_, ?_⟩
  · intro name h hne hlk
    simp [get_vcs, h, hne, hlk]
  · intro name e h hne hlk
    simp [get_vcs, h, hne, hlk]
  · intro h
    simp [get_vcs, h, probeVCS_eq_find]
  · intro t flakeRun e h
    simp [process, h]

theorem c5_witness :
    optsSvn.vcs = some "svn" ∧ ("svn" : String) ≠ "" ∧
    sampleRegistry.lookup "svn" = none ∧
    get_vcs sampleRegistry optsSvn = .error (.unsupported "svn") :=
  ⟨rfl, by decide, rfl,
    (c5_vcs_resolution sampleRegistry optsSvn).1 "svn" rfl (by decide) rfl⟩

/-- With no selected theme every component resolves to the identity. -/
theorem color_getter_of_theme_none (t : Terminal) (opts : Options)
    (h : opts.color_theme = none) (comp x : String) : color_getter t opts comp x = x := by
  simp [color_getter, h, identity, List.lookup]

/-- Claim C6: with `standard_flake8_output` each kept violation is printed
immediately in the flat flake8 format and no header appears; otherwise a file
with no kept violation prints nothing, and a file with kept violations prints
the `Found violations: filename` header followed by one tab-indented
`code @ line:char - description` line per kept violation, in flake8 output
order. With no color theme the printed strings are exactly the source's
template instantiations. -/
theorem c6_output_layout (t : Terminal) (opts : Options) (f : String)
    (lines violated : List String) :
    (opts.standard_flake8_output = true →
        fileOutput t opts f lines violated =
          (keptViolations lines violated).map
            (fun v => FLAKE8_OUTPUT (get_color_kwargs t opts (groupdict v)))) ∧
    (opts.standard_flake8_output = false → keptViolations lines violated = [] →
        fileOutput t opts f lines violated = []) ∧
    (opts.standard_flake8_output = false → keptViolations lines violated ≠ [] →
        fileOutput t opts f lines violated =
          HEADER_OUTPUT
              (get_color_kwargs t opts [("filename", f), ("header", HEADER_STRING)]) ::
            (keptViolations lines violated).map
              (fun v => SIMPLE_OUTPUT (get_color_kwargs t opts (groupdict v)))) ∧
    (opts.color_theme = none →
        (∀ v : ViolationRecord,
            FLAKE8_OUTPUT (get_color_kwargs t opts (groupdict v)) =
              v.filename ++ ":" ++ v.line_number ++ ":" ++ v.char_number ++ ": " ++
                v.error_code ++ " " ++ v.description) ∧
        (∀ v : ViolationRecord,
            SIMPLE_OUTPUT (get_color_kwargs t opts (groupdict v)) =
              "\t" ++ v.error_code ++ " @ " ++ v.line_number ++ ":" ++ v.char_number ++
                " - " ++ v.description) ∧
        HEADER_OUTPUT (get_color_kwargs t opts [("filename", f), ("header", HEADER_STRING)]) =
          "Found violations: " ++ f) := by
  refine ⟨?_, ?_, ?_, ?_⟩
  · intro h
    simp [fileOutput, h]
  · intro h1 h2
    simp [fileOutput, h1, h2]
  · intro h1 h2
    rw [fileOutput]
    simp only [h1, Bool.false_eq_true, if_false]
    rw [if_neg]
    simp [List.isEmpty_iff, h2]
  · intro h
    refine ⟨?_, ?_, ?_⟩
    · intro v
      simp [FLAKE8_OUTPUT, get_color_kwargs, color_getter_of_theme_none t opts h,
        detailsGet, groupdict, List.lookup]
    · intro v
      simp [SIMPLE_OUTPUT, get_color_kwargs, color_getter_of_theme_none t opts h,
        detailsGet, groupdict, List.lookup]
    · show HEADER_OUTPUT
        (get_color_kwargs t opts [("filename", f), ("header", HEADER_STRING)]) =
          "Found violations" ++ ": " ++ f
      simp [HEADER_OUTPUT, get_color_kwargs, color_getter_of_theme_none t opts h,
        detailsGet, HEADER_STRING, List.lookup]

theorem c6_witness :
    optsStd.standard_flake8_output = true ∧
    fileOutput identityTerminal optsStd "a.py"
        ["a.py:10:1: E501 too long", "a.py:11:1: E302 blanks"] ["10", "12"] =
      (keptViolations ["a.py:10:1: E501 too long", "a.py:11:1: E302 blanks"]
          ["10", "12"]).map
        (fun v => FLAKE8_OUTPUT (get_color_kwargs identityTerminal optsStd (groupdict v))) :=
  ⟨rfl,
    (c6_output_layout identityTerminal optsStd "a.py"
      ["a.py:10:1: E501 too long", "a.py:11:1: E302 blanks"] ["10", "12"]).1 rfl⟩

/-- Claim C7: `color_getter` resolves the selected theme's component function
and falls back to the identity when the theme is unset, unknown, or lacks the
component; `get_color_kwargs` reads the six source keys from the details
dictionary, defaulting absent keys to the empty string, and applies the
matching component's color function to each. -/
theorem c7_color_getter_and_kwargs (t : Terminal) (opts : Options)
    (details : List (String × String)) :
    (opts.color_theme = none → ∀ comp x, color_getter t opts comp x = x) ∧
    (∀ name, opts.color_theme = some name → (COLORS t).lookup name = none →
        ∀ comp x, color_getter t opts comp x = x) ∧
    (∀ name theme, opts.color_theme = some name → (COLORS t).lookup name = some theme →
        ∀ comp, theme.lookup comp = none → ∀ x, color_getter t opts comp x = x) ∧
    (∀ name theme, opts.color_theme = some name → (COLORS t).lookup name = some theme →
        ∀ comp fc, theme.lookup comp = some fc → color_getter t opts comp = fc) ∧
    (get_color_kwargs t opts details =
      ⟨ color_getter t opts "line" (detailsGet details "line_number"),
        color_getter t opts "char" (detailsGet details "char_number"),
        color_getter t opts "code" (detailsGet details "error_code"),
        color_getter t opts "description" (detailsGet details "description"),
        color_getter t opts "filename" (detailsGet details "filename"),
        color_getter t opts "header" (detailsGet details "header") ⟩) ∧
    (∀ key, details.lookup key = none → detailsGet details key = "") := by
  refine ⟨?_, ?_, ?_, ?_, rfl, ?_⟩
  · intro h comp x
    exact color_getter_of_theme_none t opts h comp x
  · intro name h hlk comp x
    simp [color_getter, h, hlk, identity, List.lookup_nil]
  · intro name theme h hlk comp hc x
    simp [color_getter, h, hlk, hc, identity]
  · intro name theme h hlk comp fc hc
    simp [color_getter, h, hlk, hc]
  · intro key h
    simp [detailsGet, h]

theorem c7_witness :
    optsGrouped.color_theme = none ∧
    color_getter identityTerminal optsGrouped "line" "17" = "17" :=
  ⟨rfl, (c7_color_getter_and_kwargs identityTerminal optsGrouped []).1 rfl "line" "17"⟩

/-- Claim C8 counterexample: the COLORS registry does not hold four themes
plus a separate identity `off` theme; it holds exactly four themes in total,
`off` being one of them. -/
theorem c8_counterexample :
    ¬ (5 ≤ (COLORS identityTerminal).length) ∧
    (COLORS identityTerminal).map Prod.fst = ["off", "nocolor", "dark", "light"] := by
  constructor
  · decide
  · rfl

/-- Every component function of the `off` theme is the identity, whatever the
terminal's attributes are. -/
theorem color_getter_off (t : Terminal) (opts : Options)
    (h : opts.color_theme = some "off") (comp x : String) : color_getter t opts comp x = x := by
  have hall : ∀ p ∈ [ ("header", identity), ("filename", identity), ("code", identity),
      ("line", identity), ("char", identity), ("description", identity) ], p.2 = identity := by
    intro p hp
    simp only [List.mem_cons, List.not_mem_nil, or_false] at hp
    rcases hp with rfl | rfl | rfl | rfl | rfl | rfl <;> rfl
  have hfun := lookup_getD_of_all_eq
    [ ("header", identity), ("filename", identity), ("code", identity),
      ("line", identity), ("char", identity), ("description", identity) ] comp identity hall
  show (let theme :=
      match opts.color_theme with
      | none => []
      | some name => ((COLORS t).lookup name).getD []
    (theme.lookup comp).getD identity) x = x
  rw [h]
  show ((((COLORS t).lookup "off").getD []).lookup comp).getD identity x = x
  have hoff : (COLORS t).lookup "off" =
      some [ ("header", identity), ("filename", identity), ("code", identity),
        ("line", identity), ("char", identity), ("description", identity) ] := rfl
  rw [hoff, Option.getD_some, hfun]
  rfl

/-- Claim C8, amended: the registry holds exactly the four themes `off`,
`nocolor`, `dark`, `light`; selecting `off` makes every component's formatting
function the identity, so the printed output coincides with the output of a
terminal with no styling at all, regardless of the attributes the `dark` and
`light` themes use. -/
theorem c8_off_theme_prints_unstyled (t : Terminal) :
    (COLORS t).map Prod.fst = ["off", "nocolor", "dark", "light"] ∧
    (∀ opts : Options, opts.color_theme = some "off" →
        ∀ comp x, color_getter t opts comp x = x) ∧
    (∀ opts : Options, opts.color_theme = some "off" →
        ∀ f lines violated, fileOutput t opts f lines violated =
          fileOutput identityTerminal opts f lines violated) := by
  refine ⟨rfl, fun opts h => color_getter_off t opts h, ?_⟩
  intro opts h f lines violated
  have hk : ∀ d, get_color_kwargs t opts d = get_color_kwargs identityTerminal opts d := by
    intro d
    show ColorKwargs.mk _ _ _ _ _ _ = ColorKwargs.mk _ _ _ _ _ _
    rw [color_getter_off t opts h, color_getter_off identityTerminal opts h,
      color_getter_off t opts h, color_getter_off identityTerminal opts h,
      color_getter_off t opts h, color_getter_off identityTerminal opts h,
      color_getter_off t opts h, color_getter_off identityTerminal opts h,
      color_getter_off t opts h, color_getter_off identityTerminal opts h,
      color_getter_off t opts h, color_getter_off identityTerminal opts h]
  simp [fileOutput, hk]

theorem c8_witness :
    optsOff.color_theme = some "off" ∧
    color_getter loudTerminal optsOff "code" "E501" = "E501" :=
  ⟨rfl, (c8_off_theme_prints_unstyled loudTerminal).2.1 optsOff rfl "code" "E501"⟩

/-! ### Regex matcher: success on well-formed lines (claim C3) -/

theorem orElse_some_left {α : Type} (a : α) (f : Unit → Option α) :
    Option.orElse (some a) f = some a := rfl

theorem orElse_none_left {α : Type} (f : Unit → Option α) :
    Option.orElse none f = f () := rfl

theorem orElse_right_none {α : Type} (x : Option α) (f : Unit → Option α) (h : f () = none) :
    Option.orElse x f = x := by
  cases x
  · rw [orElse_none_left, h]
  · rfl

theorem isDigit_not_space {c : Char} (h : c.isDigit = true) : isSpaceChar c = false := by
  cases hs : isSpaceChar c with
  | false => rfl
  | true =>
    exfalso
    have hd : c = ' ' ∨ c = '\t' ∨ c = '\n' ∨ c = '\r' ∨ c = '\x0b' ∨ c = '\x0c' := by
      simpa [isSpaceChar, or_assoc] using hs
    rcases hd with rfl | rfl | rfl | rfl | rfl | rfl <;> exact absurd h (by decide)

theorem isDigit_ne_colon {c : Char} (h : c.isDigit = true) : ¬ (c = ':') := by
  rintro rfl
  exact absurd h (by decide)

theorem isWordChar_ne_space {c : Char} (h : isWordChar c = true) : ¬ (c = ' ') := by
  rintro rfl
  exact absurd h (by decide)

theorem takeWhile_ne_newline (l : List Char) (h : ∀ c ∈ l, c ≠ '\n') :
    l.takeWhile (fun d => decide (d ≠ '\n')) = l := by
  induction l with
  | nil => rfl
  | cons c cs ih =>
    have hc : c ≠ '\n' := h c (by simp)
    simp [List.takeWhile_cons, hc]
    intro x hx
    exact h x (by simp [hx])

/-- Greedy code/description tail: on input `coded ++ ' ' :: descd` with
`coded` all word characters, the maximal code run is exactly `coded` and the
description captures all of `descd`. -/
theorem matchCodeStar_spec (fn l ch descd : List Char) (hdesc : ∀ c ∈ descd, c ≠ '\n') :
    ∀ coded acc : List Char, (∀ c ∈ coded, isWordChar c = true) →
      matchCodeStar fn l ch acc (coded ++ ' ' :: descd) =
        some (mkRecord fn l ch (acc.reverse ++ coded) descd) := by
  intro coded
  induction coded with
  | nil =>
    intro acc _
    rw [List.nil_append]
    simp only [matchCodeStar]
    rw [if_neg (by decide : ¬ (isWordChar ' ' = true)), orElse_none_left]
    simp [mkRecord]
    intro x hx
    exact hdesc x hx
  | cons c coded ih =>
    intro acc hcode
    have hw : isWordChar c = true := hcode c (by simp)
    rw [List.cons_append]
    simp only [matchCodeStar]
    rw [if_pos hw, ih (c :: acc) (fun d hd => hcode d (by simp [hd])), orElse_some_left]
    simp [mkRecord, List.append_assoc]

/-- Greedy char-number digits: on `ds ++ ':' :: ' ' :: rest` with `ds` all
digits, the digit run stops exactly at the colon and matching continues with
the code tail. -/
theorem matchCharNum_spec (fn l rest : List Char) :
    ∀ ds chAcc : List Char, (∀ c ∈ ds, c.isDigit = true) →
      matchCharNum fn l chAcc (ds ++ ':' :: ' ' :: rest) =
        matchCodeStar fn l (chAcc.reverse ++ ds) [] rest := by
  intro ds
  induction ds with
  | nil =>
    intro chAcc _
    rw [List.nil_append]
    simp only [matchCharNum]
    rw [if_neg (by decide : ¬ ((':' : Char).isDigit = true)), orElse_none_left]
    simp
  | cons d ds ih =>
    intro chAcc hds
    have hd : d.isDigit = true := hds d (by simp)
    rw [List.cons_append]
    simp only [matchCharNum]
    rw [if_pos hd, ih (d :: chAcc) (fun c hc => hds c (by simp [hc])),
      orElse_right_none _ _ (if_neg (isDigit_ne_colon hd))]
    simp [List.append_assoc]

/-- Greedy line-number digits: on `ds ++ ':' :: rest` with `ds` all digits,
the digit run stops exactly at the colon and matching continues with the
char-number part. -/
theorem matchLineNum_spec (fn rest : List Char) :
    ∀ ds lAcc : List Char, (∀ c ∈ ds, c.isDigit = true) →
      matchLineNum fn lAcc (ds ++ ':' :: rest) =
        matchCharNumStart fn (lAcc.reverse ++ ds) rest := by
  intro ds
  induction ds with
  | nil =>
    intro lAcc _
    rw [List.nil_append]
    simp only [matchLineNum]
    rw [if_neg (by decide : ¬ ((':' : Char).isDigit = true)), orElse_none_left]
    simp
  | cons d ds ih =>
    intro lAcc hds
    have hd : d.isDigit = true := hds d (by simp)
    rw [List.cons_append]
    simp only [matchLineNum]
    rw [if_pos hd, ih (d :: lAcc) (fun c hc => hds c (by simp [hc])),
      orElse_right_none _ _ (if_neg (isDigit_ne_colon hd))]
    simp [List.append_assoc]

/-- One-step unfolding of `matchFilename` at a cons cell. -/
theorem matchFilename_cons (fnAcc : List Char) (c : Char) (cs : List Char) :
    matchFilename fnAcc (c :: cs) =
      Option.orElse (if isSpaceChar c = false then matchFilename (c :: fnAcc) cs else none)
        (fun _ => if c = ':' then matchLineNumStart fnAcc.reverse cs else none) := rfl

/-- One-step unfolding of `matchLineNumStart` at a cons cell. -/
theorem matchLineNumStart_cons (fn : List Char) (c : Char) (cs : List Char) :
    matchLineNumStart fn (c :: cs) =
      if c.isDigit then matchLineNum fn [c] cs else none := rfl

/-- One-step unfolding of `matchLineNum` at a cons cell. -/
theorem matchLineNum_cons (fn lAcc : List Char) (c : Char) (cs : List Char) :
    matchLineNum fn lAcc (c :: cs) =
      Option.orElse (if c.isDigit then matchLineNum fn (c :: lAcc) cs else none)
        (fun _ => if c = ':' then matchCharNumStart fn lAcc.reverse cs else none) := rfl

/-- One-step unfolding of `matchCharNumStart` at a cons cell. -/
theorem matchCharNumStart_cons (fn l : List Char) (c : Char) (cs : List Char) :
    matchCharNumStart fn l (c :: cs) =
      if c.isDigit then matchCharNum fn l [c] cs else none := rfl

theorem orElse_none_left_eq {α : Type} (f : Unit → Option α) (y : Option α) (h : f () = y) :
    Option.orElse none f = y := by
  rw [orElse_none_left]
  exact h

/-- A line-number group cannot start at a space. -/
theorem matchLineNumStart_space (fn ws : List Char) :
    matchLineNumStart fn (' ' :: ws) = none := by
  rw [matchLineNumStart_cons, if_neg (by decide : ¬ ((' ' : Char).isDigit = true))]

/-- A char-number group cannot start at a space. -/
theorem matchCharNumStart_space (fn l ws : List Char) :
    matchCharNumStart fn l (' ' :: ws) = none := by
  rw [matchCharNumStart_cons, if_neg (by decide : ¬ ((' ' : Char).isDigit = true))]

/-- If what follows the line-number digits is `: ` (colon then space) there is
no char-number group, so the line-number branch fails however the digit run is
split. -/
theorem matchLineNum_no_charnum (fn ws : List Char) :
    ∀ ds lAcc, (∀ c ∈ ds, c.isDigit = true) →
      matchLineNum fn lAcc (ds ++ (':' :: (' ' :: ws))) = none := by
  intro ds
  induction ds with
  | nil =>
    intro lAcc _
    rw [List.nil_append, matchLineNum_cons,
      if_neg (by decide : ¬ ((':' : Char).isDigit = true))]
    exact orElse_none_left_eq _ _
      (by rw [if_pos rfl]; exact matchCharNumStart_space fn lAcc.reverse ws)
  | cons d ds ih =>
    intro lAcc hds
    have hd : d.isDigit = true := hds d (by simp)
    rw [List.cons_append, matchLineNum_cons, if_pos hd,
      ih (d :: lAcc) (fun c hc => hds c (by simp [hc])),
      orElse_right_none _ _ (if_neg (isDigit_ne_colon hd))]

/-- A nonempty digit run followed by `: ` is not a valid `line:char` prefix:
the char-number position holds a space. -/
theorem matchLineNumStart_no_charnum (fn ws ds : List Char)
    (hds : ∀ c ∈ ds, c.isDigit = true) (hne : ds ≠ []) :
    matchLineNumStart fn (ds ++ (':' :: (' ' :: ws))) = none := by
  obtain ⟨d, ds', rfl⟩ := List.exists_cons_of_ne_nil hne
  rw [List.cons_append, matchLineNumStart_cons, if_pos (hds d (by simp))]
  exact matchLineNum_no_charnum fn ws ds' [d] (fun c hc => hds c (by simp [hc]))

/-- The filename group cannot extend to or beyond the separating space. -/
theorem matchFilename_space (ws acc : List Char) :
    matchFilename acc (' ' :: ws) = none := by
  rw [matchFilename_cons, if_neg (by decide : ¬ (isSpaceChar ' ' = false)),
    orElse_right_none _ _ (if_neg (by decide : ¬ ((' ' : Char) = ':')))]

/-- Greedy filename overshoot into the char-number region fails: a filename
candidate ending anywhere inside `ds ++ ': ' ++ ws` (`ds` all digits) leaves
no valid `line:char: ` remainder. -/
theorem matchFilename_char_region (ws : List Char) :
    ∀ ds acc, (∀ c ∈ ds, c.isDigit = true) →
      matchFilename acc (ds ++ (':' :: (' ' :: ws))) = none := by
  intro ds
  induction ds with
  | nil =>
    intro acc _
    rw [List.nil_append, matchFilename_cons, if_pos (by decide : isSpaceChar ':' = false),
      matchFilename_space ws (':' :: acc)]
    exact orElse_none_left_eq _ _
      (by rw [if_pos rfl]; exact matchLineNumStart_space acc.reverse ws)
  | cons d ds ih =>
    intro acc hds
    have hd : d.isDigit = true := hds d (by simp)
    rw [List.cons_append, matchFilename_cons, if_pos (isDigit_not_space hd),
      ih (d :: acc) (fun c hc => hds c (by simp [hc])),
      orElse_right_none _ _ (if_neg (isDigit_ne_colon hd))]

/-- Greedy filename overshoot into the line-number region fails: a filename
candidate ending anywhere inside `ds ++ ':' ++ chd ++ ': ' ++ ws` (digit runs
`ds`, `chd`) leaves no valid `line:char: ` remainder. -/
theorem matchFilename_line_region (ws chd : List Char)
    (hchd : ∀ c ∈ chd, c.isDigit = true) (hchdne : chd ≠ []) :
    ∀ ds acc, (∀ c ∈ ds, c.isDigit = true) →
      matchFilename acc (ds ++ (':' :: (chd ++ (':' :: (' ' :: ws))))) = none := by
  intro ds
  induction ds with
  | nil =>
    intro acc _
    rw [List.nil_append, matchFilename_cons, if_pos (by decide : isSpaceChar ':' = false),
      matchFilename_char_region ws chd (':' :: acc) hchd]
    exact orElse_none_left_eq _ _
      (by rw [if_pos rfl]; exact matchLineNumStart_no_charnum acc.reverse ws chd hchd hchdne)
  | cons d ds ih =>
    intro acc hds
    have hd : d.isDigit = true := hds d (by simp)
    rw [List.cons_append, matchFilename_cons, if_pos (isDigit_not_space hd),
      ih (d :: acc) (fun c hc => hds c (by simp [hc])),
      orElse_right_none _ _ (if_neg (isDigit_ne_colon hd))]

/-- The greedy filename group consumes exactly the non-space run before the
`:line:char: ` structure: all longer filename candidates fail, and at the
intended boundary the rest of the pattern matches, producing the record of the
five delimited substrings. -/
theorem matchFilename_spec (ld chd coded descd : List Char)
    (hld : ∀ c ∈ ld, c.isDigit = true) (hldne : ld ≠ [])
    (hchd : ∀ c ∈ chd, c.isDigit = true) (hchdne : chd ≠ [])
    (hcode : ∀ c ∈ coded, isWordChar c = true)
    (hdesc : ∀ c ∈ descd, c ≠ '\n') :
    ∀ fnd acc, (∀ c ∈ fnd, isSpaceChar c = false) →
      matchFilename acc
          (fnd ++ (':' :: (ld ++ (':' :: (chd ++ (':' :: (' ' :: (coded ++ (' ' :: descd))))))))) =
        some (mkRecord (acc.reverse ++ fnd) ld chd coded descd) := by
  intro fnd
  induction fnd with
  | nil =>
    intro acc _
    obtain ⟨l0, ld', rfl⟩ := List.exists_cons_of_ne_nil hldne
    obtain ⟨c0, chd', rfl⟩ := List.exists_cons_of_ne_nil hchdne
    rw [List.nil_append, List.append_nil, matchFilename_cons,
      if_pos (by decide : isSpaceChar ':' = false),
      matchFilename_line_region (coded ++ (' ' :: descd)) (c0 :: chd') hchd hchdne
        (l0 :: ld') (':' :: acc) hld]
    refine orElse_none_left_eq _ _ ?_
    rw [if_pos rfl, List.cons_append, matchLineNumStart_cons, if_pos (hld l0 (by simp)),
      matchLineNum_spec acc.reverse ((c0 :: chd') ++ (':' :: (' ' :: (coded ++ (' ' :: descd)))))
        ld' [l0] (fun c hc => hld c (by simp [hc])),
      show ([l0].reverse ++ ld') = l0 :: ld' by simp,
      List.cons_append, matchCharNumStart_cons, if_pos (hchd c0 (by simp)),
      matchCharNum_spec acc.reverse (l0 :: ld') (coded ++ (' ' :: descd)) chd' [c0]
        (fun c hc => hchd c (by simp [hc])),
      show ([c0].reverse ++ chd') = c0 :: chd' by simp,
      matchCodeStar_spec acc.reverse (l0 :: ld') (c0 :: chd') descd hdesc coded [] hcode]
    simp [mkRecord]
  | cons c fnd ih =>
    intro acc hfn
    rw [List.cons_append, matchFilename_cons, if_pos (hfn c (by simp)),
      ih (c :: acc) (fun d hd => hfn d (by simp [hd])), orElse_some_left]
    simp [mkRecord, List.append_assoc]

theorem data_asString (l : List Char) : (l.asString).data = l := rfl

theorem FLAKE8_LINE_cons (c : Char) (cs : List Char) :
    FLAKE8_LINE ((c :: cs).asString) =
      if isSpaceChar c = false then matchFilename [c] cs else none := rfl

/-- Claim C3: on any input line of the fixed form
`filename:line:char: code description` (filename a nonempty run of non-space
characters, line and char nonempty digit runs, code a possibly empty run of
word characters, description arbitrary newline-free text), the line parser
succeeds and returns exactly the five substrings delimited by the literal
separators `:`, `:`, `: `, ` `, the description capturing all trailing text
including colons and spaces. -/
theorem c3_line_parser_extracts_fields (fnd ld chd coded descd : List Char)
    (hfnd : fnd ≠ []) (hfn : ∀ c ∈ fnd, isSpaceChar c = false)
    (hldne : ld ≠ []) (hld : ∀ c ∈ ld, c.isDigit = true)
    (hchdne : chd ≠ []) (hchd : ∀ c ∈ chd, c.isDigit = true)
    (hcode : ∀ c ∈ coded, isWordChar c = true)
    (hdesc : ∀ c ∈ descd, c ≠ '\n') :
    FLAKE8_LINE
        ((fnd ++ (':' :: (ld ++ (':' :: (chd ++
          (':' :: (' ' :: (coded ++ (' ' :: descd))))))))).asString) =
      some ⟨fnd.asString, ld.asString, chd.asString, coded.asString, descd.asString⟩ := by
  obtain ⟨f0, fnd', rfl⟩ := List.exists_cons_of_ne_nil hfnd
  have h0 : isSpaceChar f0 = false := hfn f0 (by simp)
  rw [List.cons_append, FLAKE8_LINE_cons, if_pos h0,
    matchFilename_spec ld chd coded descd hld hldne hchd hchdne hcode hdesc fnd' [f0]
      (fun c hc => hfn c (by simp [hc]))]
  simp [mkRecord]

theorem c3_witness :
    ("a.py".data ≠ [] ∧ (∀ c ∈ "a.py".data, isSpaceChar c = false) ∧
      "10".data ≠ [] ∧ (∀ c ∈ "10".data, c.isDigit = true) ∧
      "1".data ≠ [] ∧ (∀ c ∈ "1".data, c.isDigit = true) ∧
      (∀ c ∈ "E501".data, isWordChar c = true) ∧
      (∀ c ∈ "line too long: x".data, c ≠ '\n')) ∧
    FLAKE8_LINE
        (("a.py".data ++ (':' :: ("10".data ++ (':' :: ("1".data ++
          (':' :: (' ' :: ("E501".data ++ (' ' :: "line too long: x".data))))))))).asString) =
      some ⟨"a.py", "10", "1", "E501", "line too long: x"⟩ :=
  ⟨by decide,
    c3_line_parser_extracts_fields "a.py".data "10".data "1".data "E501".data
      "line too long: x".data (by decide) (by decide) (by decide) (by decide) (by decide)
      (by decide) (by decide) (by decide)⟩

/-! ### Regex matcher: soundness (claim C4) -/

/-- One-step unfolding of `matchCodeStar` at a cons cell. -/
theorem matchCodeStar_cons (fn l ch codeAcc : List Char) (c : Char) (cs : List Char) :
    matchCodeStar fn l ch codeAcc (c :: cs) =
      Option.orElse (if isWordChar c then matchCodeStar fn l ch (c :: codeAcc) cs else none)
        (fun _ =>
          if c = ' ' then
            some (mkRecord fn l ch codeAcc.reverse (cs.takeWhile (fun d => decide (d ≠ '\n'))))
          else none) := rfl

/-- One-step unfolding of `matchCharNum` at a cons cell. -/
theorem matchCharNum_cons (fn l chAcc : List Char) (c : Char) (cs : List Char) :
    matchCharNum fn l chAcc (c :: cs) =
      Option.orElse (if c.isDigit then matchCharNum fn l (c :: chAcc) cs else none)
        (fun _ =>
          if c = ':' then
            match cs with
            | c2 :: rest => if c2 = ' ' then matchCodeStar fn l chAcc.reverse [] rest else none
            | [] => none
          else none) := rfl

/-- A successful code/description match decomposes its input as a word-char
run, a space, and the description remainder. -/
theorem matchCodeStar_sound (fn l ch : List Char) :
    ∀ cs codeAcc r, matchCodeStar fn l ch codeAcc cs = some r →
      ∃ cd rest, cs = cd ++ (' ' :: rest) ∧ (∀ c ∈ cd, isWordChar c = true) ∧
        r = mkRecord fn l ch (codeAcc.reverse ++ cd)
              (rest.takeWhile (fun d => decide (d ≠ '\n'))) := by
  intro cs
  induction cs with
  | nil =>
    intro codeAcc r h
    exact absurd h (by simp [matchCodeStar])
  | cons c cs ih =>
    intro codeAcc r h
    rw [matchCodeStar_cons] at h
    cases hw : isWordChar c with
    | true =>
      rw [if_pos hw] at h
      cases hm : matchCodeStar fn l ch (c :: codeAcc) cs with
      | some r' =>
        rw [hm, orElse_some_left] at h
        injection h with h'
        subst h'
        obtain ⟨cd, rest, hcs, hcd, hr⟩ := ih (c :: codeAcc) r' hm
        refine ⟨c :: cd, rest, by rw [List.cons_append, hcs], ?_, ?_⟩
        · intro x hx
          rcases List.mem_cons.mp hx with rfl | hx'
          · exact hw
          · exact hcd x hx'
        · rw [hr]
          simp [mkRecord, List.append_assoc]
      | none =>
        rw [hm, orElse_none_left, if_neg (isWordChar_ne_space hw)] at h
        simp at h
    | false =>
      have hw' : ¬ (isWordChar c = true) := by
        rw [hw]
        exact Bool.false_ne_true
      rw [if_neg hw', orElse_none_left] at h
      by_cases hsp : c = ' '
      · subst hsp
        rw [if_pos rfl] at h
        have h' : some (mkRecord fn l ch codeAcc.reverse
            (cs.takeWhile (fun d => decide (d ≠ '\n')))) = some r := h
        injection h' with h''
        exact ⟨[], cs, by simp, by simp, by rw [← h'']; simp⟩
      · rw [if_neg hsp] at h
        simp at h

/-- A successful char-number match decomposes its input as a digit run, the
literal `: `, and a remainder on which the code tail matches. -/
theorem matchCharNum_sound (fn l : List Char) :
    ∀ cs chAcc r, matchCharNum fn l chAcc cs = some r →
      ∃ ds rest, cs = ds ++ (':' :: (' ' :: rest)) ∧ (∀ c ∈ ds, c.isDigit = true) ∧
        matchCodeStar fn l (chAcc.reverse ++ ds) [] rest = some r := by
  intro cs
  induction cs with
  | nil =>
    intro chAcc r h
    exact absurd h (by simp [matchCharNum])
  | cons c cs ih =>
    intro chAcc r h
    rw [matchCharNum_cons] at h
    cases hdg : c.isDigit with
    | true =>
      rw [if_pos hdg] at h
      cases hm : matchCharNum fn l (c :: chAcc) cs with
      | some r' =>
        rw [hm, orElse_some_left] at h
        injection h with h'
        subst h'
        obtain ⟨ds, rest, hcs, hds, hcode⟩ := ih (c :: chAcc) r' hm
        have he : (c :: chAcc).reverse ++ ds = chAcc.reverse ++ (c :: ds) := by
          simp [List.append_assoc]
        rw [he] at hcode
        refine ⟨c :: ds, rest, by rw [List.cons_append, hcs], ?_, hcode⟩
        intro x hx
        rcases List.mem_cons.mp hx with rfl | hx'
        · exact hdg
        · exact hds x hx'
      | none =>
        rw [hm, orElse_none_left, if_neg (isDigit_ne_colon hdg)] at h
        simp at h
    | false =>
      have hdg' : ¬ (c.isDigit = true) := by
        rw [hdg]
        exact Bool.false_ne_true
      rw [if_neg hdg', orElse_none_left] at h
      by_cases hc : c = ':'
      · subst hc
        rw [if_pos rfl] at h
        cases cs with
        | nil => simp at h
        | cons c2 cs2 =>
          by_cases h2 : c2 = ' '
          · subst h2
            have h' : matchCodeStar fn l chAcc.reverse [] cs2 = some r := h
            exact ⟨[], cs2, by simp, by simp, by simpa using h'⟩
          · have h' : (if c2 = ' ' then matchCodeStar fn l chAcc.reverse [] cs2
                else none) = some r := h
            rw [if_neg h2] at h'
            simp at h'
      · rw [if_neg hc] at h
        simp at h

/-- A successful line-number match decomposes its input as a digit run, a
colon, and a remainder on which the char-number part matches. -/
theorem matchLineNum_sound (fn : List Char) :
    ∀ cs lAcc r, matchLineNum fn lAcc cs = some r →
      ∃ ds rest, cs = ds ++ (':' :: rest) ∧ (∀ c ∈ ds, c.isDigit = true) ∧
        matchCharNumStart fn (lAcc.reverse ++ ds) rest = some r := by
  intro cs
  induction cs with
  | nil =>
    intro lAcc r h
    exact absurd h (by simp [matchLineNum])
  | cons c cs ih =>
    intro lAcc r h
    rw [matchLineNum_cons] at h
    cases hdg : c.isDigit with
    | true =>
      rw [if_pos hdg] at h
      cases hm : matchLineNum fn (c :: lAcc) cs with
      | some r' =>
        rw [hm, orElse_some_left] at h
        injection h with h'
        subst h'
        obtain ⟨ds, rest, hcs, hds, hstart⟩ := ih (c :: lAcc) r' hm
        have he : (c :: lAcc).reverse ++ ds = lAcc.reverse ++ (c :: ds) := by
          simp [List.append_assoc]
        rw [he] at hstart
        refine ⟨c :: ds, rest, by rw [List.cons_append, hcs], ?_, hstart⟩
        intro x hx
        rcases List.mem_cons.mp hx with rfl | hx'
        · exact hdg
        · exact hds x hx'
      | none =>
        rw [hm, orElse_none_left, if_neg (isDigit_ne_colon hdg)] at h
        simp at h
    | false =>
      have hdg' : ¬ (c.isDigit = true) := by
        rw [hdg]
        exact Bool.false_ne_true
      rw [if_neg hdg', orElse_none_left] at h
      by_cases hc : c = ':'
      · subst hc
        rw [if_pos rfl] at h
        have h' : matchCharNumStart fn lAcc.reverse cs = some r := h
        exact ⟨[], cs, by simp, by simp, by simpa using h'⟩
      · rw [if_neg hc] at h
        simp at h

/-- A successful line-number entry consumes a nonempty digit run. -/
theorem matchLineNumStart_sound (fn cs : List Char) (r : ViolationRecord)
    (h : matchLineNumStart fn cs = some r) :
    ∃ d ds rest, cs = (d :: ds) ++ (':' :: rest) ∧ (∀ c ∈ d :: ds, c.isDigit = true) ∧
      matchCharNumStart fn (d :: ds) rest = some r := by
  cases cs with
  | nil => exact absurd h (by simp [matchLineNumStart])
  | cons c cs' =>
    rw [matchLineNumStart_cons] at h
    cases hdg : c.isDigit with
    | false =>
      rw [if_neg (by rw [hdg]; exact Bool.false_ne_true)] at h
      simp at h
    | true =>
      rw [if_pos hdg] at h
      obtain ⟨ds, rest, hcs, hds, hstart⟩ := matchLineNum_sound fn cs' [c] r h
      refine ⟨c, ds, rest, by rw [List.cons_append, hcs], ?_, by simpa using hstart⟩
      intro x hx
      rcases List.mem_cons.mp hx with rfl | hx'
      · exact hdg
      · exact hds x hx'

/-- A successful char-number entry consumes a nonempty digit run followed by
the literal `: `. -/
theorem matchCharNumStart_sound (fn l cs : List Char) (r : ViolationRecord)
    (h : matchCharNumStart fn l cs = some r) :
    ∃ d ds rest, cs = (d :: ds) ++ (':' :: (' ' :: rest)) ∧
      (∀ c ∈ d :: ds, c.isDigit = true) ∧
      matchCodeStar fn l (d :: ds) [] rest = some r := by
  cases cs with
  | nil => exact absurd h (by simp [matchCharNumStart])
  | cons c cs' =>
    rw [matchCharNumStart_cons] at h
    cases hdg : c.isDigit with
    | false =>
      rw [if_neg (by rw [hdg]; exact Bool.false_ne_true)] at h
      simp at h
    | true =>
      rw [if_pos hdg] at h
      obtain ⟨ds, rest, hcs, hds, hcode⟩ := matchCharNum_sound fn l cs' [c] r h
      refine ⟨c, ds, rest, by rw [List.cons_append, hcs], ?_, by simpa using hcode⟩
      intro x hx
      rcases List.mem_cons.mp hx with rfl | hx'
      · exact hdg
      · exact hds x hx'

/-- A successful filename match decomposes its input as a non-space run, a
colon, and a remainder on which the line-number part matches. -/
theorem matchFilename_sound :
    ∀ cs fnAcc r, matchFilename fnAcc cs = some r →
      ∃ ms rest, cs = ms ++ (':' :: rest) ∧ (∀ c ∈ ms, isSpaceChar c = false) ∧
        matchLineNumStart (fnAcc.reverse ++ ms) rest = some r := by
  intro cs
  induction cs with
  | nil =>
    intro fnAcc r h
    exact absurd h (by simp [matchFilename])
  | cons c cs ih =>
    intro fnAcc r h
    rw [matchFilename_cons] at h
    cases hsp : isSpaceChar c with
    | false =>
      rw [if_pos hsp] at h
      cases hm : matchFilename (c :: fnAcc) cs with
      | some r' =>
        rw [hm, orElse_some_left] at h
        injection h with h'
        subst h'
        obtain ⟨ms, rest, hcs, hms, hstart⟩ := ih (c :: fnAcc) r' hm
        have he : (c :: fnAcc).reverse ++ ms = fnAcc.reverse ++ (c :: ms) := by
          simp [List.append_assoc]
        rw [he] at hstart
        refine ⟨c :: ms, rest, by rw [List.cons_append, hcs], ?_, hstart⟩
        intro x hx
        rcases List.mem_cons.mp hx with rfl | hx'
        · exact hsp
        · exact hms x hx'
      | none =>
        rw [hm, orElse_none_left] at h
        by_cases hc : c = ':'
        · subst hc
          rw [if_pos rfl] at h
          have h' : matchLineNumStart fnAcc.reverse cs = some r := h
          exact ⟨[], cs, by simp, by simp, by simpa using h'⟩
        · rw [if_neg hc] at h
          simp at h
    | true =>
      rw [if_neg (by simp [hsp] : ¬ (isSpaceChar c = false)), orElse_none_left] at h
      by_cases hc : c = ':'
      · subst hc
        exact absurd hsp (by decide)
      · rw [if_neg hc] at h
        simp at h

/-- The fixed structured format of §4.1: `filename:line:char: code description`
with a nonempty non-space filename, nonempty digit runs for line and char, a
possibly empty word-character code, and an arbitrary description remainder. -/
def MatchesFormat (s : String) : Prop :=
  ∃ fnd ld chd coded descd : List Char,
    s.data = fnd ++ (':' :: (ld ++ (':' :: (chd ++
      (':' :: (' ' :: (coded ++ (' ' :: descd)))))))) ∧
    fnd ≠ [] ∧ (∀ c ∈ fnd, isSpaceChar c = false) ∧
    ld ≠ [] ∧ (∀ c ∈ ld, c.isDigit = true) ∧
    chd ≠ [] ∧ (∀ c ∈ chd, c.isDigit = true) ∧
    (∀ c ∈ coded, isWordChar c = true)

/-- Any line the parser accepts has the fixed structured format. -/
theorem FLAKE8_LINE_some_matchesFormat (s : String) (r : ViolationRecord)
    (h : FLAKE8_LINE s = some r) : MatchesFormat s := by
  obtain ⟨data⟩ := s
  cases data with
  | nil => exact absurd h (by simp [FLAKE8_LINE])
  | cons c cs =>
    rw [show (String.mk (c :: cs)) = (c :: cs).asString from rfl, FLAKE8_LINE_cons] at h
    cases hsp : isSpaceChar c with
    | true =>
      rw [if_neg (by simp [hsp] : ¬ (isSpaceChar c = false))] at h
      simp at h
    | false =>
      rw [if_pos hsp] at h
      obtain ⟨ms, rest, hcs, hms, h2⟩ := matchFilename_sound cs [c] r h
      obtain ⟨l0, ld', rest2, hrest, hld, h3⟩ := matchLineNumStart_sound _ rest r
        (by simpa using h2)
      obtain ⟨c0, chd', rest3, hrest2, hchd, h4⟩ := matchCharNumStart_sound _ _ rest2 r h3
      obtain ⟨cd, rest4, hrest3, hcd, -⟩ := matchCodeStar_sound _ _ _ rest3 [] r h4
      refine ⟨c :: ms, l0 :: ld', c0 :: chd', cd, rest4, ?_, by simp, ?_, by simp, hld,
        by simp, hchd, hcd⟩
      · show c :: cs = _
        rw [hcs, hrest, hrest2, hrest3]
        simp
      · intro x hx
        rcases List.mem_cons.mp hx with rfl | hx'
        · exact hsp
        · exact hms x hx'

/-- Claim C4: a line without the fixed format yields no record (the parser,
a total function, returns `none` rather than raising), and such a line
changes neither the kept-violation list, nor the violation count, nor the
printed output of the file that contained it. -/
theorem c4_nonmatching_line_skipped (s : String) (hnm : ¬ MatchesFormat s) :
    FLAKE8_LINE s = none ∧
    (∀ pre post violated,
        keptViolations (pre ++ s :: post) violated = keptViolations (pre ++ post) violated) ∧
    (∀ pre post violated,
        violationCount (pre ++ s :: post) violated =
          violationCount (pre ++ post) violated) ∧
    (∀ t opts f pre post violated,
        fileOutput t opts f (pre ++ s :: post) violated =
          fileOutput t opts f (pre ++ post) violated) := by
  have hnone : FLAKE8_LINE s = none := by
    cases hh : FLAKE8_LINE s with
    | none => rfl
    | some r => exact absurd (FLAKE8_LINE_some_matchesFormat s r hh) hnm
  have hkept : ∀ pre post violated,
      keptViolations (pre ++ s :: post) violated = keptViolations (pre ++ post) violated := by
    intro pre post violated
    simp [keptViolations, parsedViolations, List.filterMap_append, List.filterMap_cons, hnone]
  refine ⟨hnone, hkept, ?_, ?_⟩
  · intro pre post violated
    simp [violationCount, hkept]
  · intro t opts f pre post violated
    simp [fileOutput, hkept]

theorem c4_witness :
    ¬ MatchesFormat "2 warnings found" ∧
    FLAKE8_LINE "2 warnings found" = none ∧
    keptViolations (["a.py:10:1: E501 x"] ++ "2 warnings found" :: []) ["10"] =
      keptViolations (["a.py:10:1: E501 x"] ++ []) ["10"] := by
  have hnm : ¬ MatchesFormat "2 warnings found" := by
    rintro ⟨fnd, ld, chd, coded, descd, hdata, -, -, -, -, -, -, -⟩
    have hc : ¬ ((':' : Char) ∈ "2 warnings found".data) := by decide
    apply hc
    rw [hdata]
    simp
  exact ⟨hnm, (c4_nonmatching_line_skipped "2 warnings found" hnm).1,
    (c4_nonmatching_line_skipped "2 warnings found" hnm).2.1 ["a.py:10:1: E501 x"] [] ["10"]⟩

end Flake8Diff
